import Mathlib

/-!
Formal model of the chess game analyzer in analyze_game.py.

Scores, times and budgets are modelled as rationals; moves are abstract
identifiers (naturals); the oracle engine and the chess-rules library are
external collaborators, modelled by explicit inputs (update streams,
per-call verdicts, per-ply board data).
-/

namespace ChessAnalyzer

/-- Configuration globals from analyze_game.py lines 18-26. -/
def TIME_LIMIT : ℚ := 11

def QUICK_ANALYSIS_TIME : ℚ := 1/10

def QUICK_ANALYSIS_PLY : ℕ := 50

def TOP_N : ℕ := 20

def GAME_OVER_EVAL_THRESHOLD : ℚ := 10

def ANALYSIS_MODE : String := "stability"

def STABILITY_THRESHOLD : ℚ := 10

/-- Abstract move identifier (the chess library's move objects are external). -/
abbrev Move := ℕ

/-- The relative score carried by an engine info update: either a forced-mate
distance (signed: positive means the side to move mates, negative means it is
mated) or a centipawn value. Models score.relative in _extract_evaluation. -/
inductive Score where
  | mate (m : ℤ)
  | cp (c : ℤ)
deriving DecidableEq

/-- One engine info update, as consumed by the streaming loops: the principal
variation (empty models an update without a usable pv), the optional score,
the search depth, and the wall-clock instant at which the update is processed
(all time.time() readings while handling one update are identified with it). -/
structure EngineInfo where
  pv : List Move
  score : Option Score
  depth : ℕ
  t : ℚ
deriving DecidableEq

/-- GameAnalyzer._extract_evaluation (lines 138-152): mate scores are mapped
through min/max caps, centipawn scores are divided by 100, and a missing
score yields an absent result. -/
def extractEvaluation : Option Score → Option ℚ
  | none => none
  | some (Score.mate m) =>
      if m > 0 then
        some (min 99 (1000 - (m : ℚ)))
      else
        some (max (-99) (-1000 + (m : ℚ)))
  | some (Score.cp c) => some ((c : ℚ) / 100)

/-- GameAnalyzer._calculate_eval_change (lines 154-168): absent if either
operand is absent, otherwise the negated post-move score minus the pre-move
score. -/
def calculateEvalChange : Option ℚ → Option ℚ → Option ℚ
  | none, _ => none
  | some _, none => none
  | some evalBefore, some evalAfter => some ((-evalAfter) - evalBefore)

/-- The per-ply time-budget selection inlined in analyze_game (lines 96-101):
quick budget when ply_index + 1 < QUICK_ANALYSIS_PLY, or when a pre-move
evaluation is present with magnitude above GAME_OVER_EVAL_THRESHOLD;
otherwise the deep budget. -/
def computeTimeLimit (plyIndex : ℕ) (evalBefore : Option ℚ) : ℚ :=
  if plyIndex + 1 < QUICK_ANALYSIS_PLY then
    QUICK_ANALYSIS_TIME
  else
    match evalBefore with
    | some e => if |e| > GAME_OVER_EVAL_THRESHOLD then QUICK_ANALYSIS_TIME else TIME_LIMIT
    | none => TIME_LIMIT

/-- A completed position analysis, as returned by analyze_position: optional
best move, optional evaluation, principal variation truncated for display,
and elapsed wall-clock time. -/
structure PositionVerdict where
  best_move : Option Move
  evaluation : Option ℚ
  principal_variation : List Move
  time_taken : ℚ
deriving DecidableEq

/-- The mutable locals of the stability loop in analyze_position
(lines 205-209): tracked best move, the instant it last changed, the tracked
principal variation and evaluation, and the last seen depth. -/
structure StabState where
  lastBestMove : Option Move
  lastChangeTime : ℚ
  bestPv : Option (List Move)
  bestEval : Option ℚ
  lastDepth : ℕ
deriving DecidableEq

/-- One iteration of the stability loop in analyze_position (lines 213-268).
An update without a pv is skipped. A changed leading move replaces the whole
tracked verdict and resets the change time. An unchanged leading move first
checks the quiet period: if it has elapsed, the loop breaks with the state
untouched; otherwise the tracked pv and evaluation are refined in place.
The boolean is true when the loop breaks. -/
def stabStep (st : StabState) (u : EngineInfo) : StabState × Bool :=
  match u.pv with
  | [] => (st, false)
  | cur :: _ =>
    if st.lastBestMove ≠ some cur then
      (⟨some cur, u.t, some u.pv, extractEvaluation u.score, u.depth⟩, false)
    else if STABILITY_THRESHOLD ≤ u.t - st.lastChangeTime then
      (st, true)
    else
      ({ st with bestPv := some u.pv, bestEval := extractEvaluation u.score, lastDepth := u.depth }, false)

/-- Runs the stability loop over a finite stream of updates, stopping early
when a step reports a break. The boolean records whether the loop stopped on
stability (true) or the stream ended first (false). -/
def stabRun (st : StabState) : List EngineInfo → StabState × Bool
  | [] => (st, false)
  | u :: us =>
    match stabStep st u with
    | (st1, true) => (st1, true)
    | (st1, false) => stabRun st1 us

/-- The initial stability-loop state (lines 205-206): no tracked move, the
change clock seeded with the start time. -/
def initStab (startTime : ℚ) : StabState :=
  ⟨none, startTime, none, none, 0⟩

/-- The verdict assembled after the stability loop (lines 270-277). -/
def analyzePositionStability (startTime : ℚ) (updates : List EngineInfo)
    (endTime : ℚ) : PositionVerdict :=
  { best_move := (stabRun (initStab startTime) updates).1.lastBestMove
    evaluation := (stabRun (initStab startTime) updates).1.bestEval
    principal_variation := ((stabRun (initStab startTime) updates).1.bestPv.getD []).take 7
    time_taken := endTime - startTime }

/-- The fixed-time branch of analyze_position (lines 278-299): one blocking
engine query whose optional info dictionary is read for pv and score. -/
def analyzePositionTimed (info : Option EngineInfo) (startTime endTime : ℚ) :
    PositionVerdict :=
  match info with
  | none =>
      { best_move := none, evaluation := none, principal_variation := []
        time_taken := endTime - startTime }
  | some i =>
      { best_move := i.pv.head?
        evaluation := extractEvaluation i.score
        principal_variation := i.pv.take 7
        time_taken := endTime - startTime }

/-- The error raised when an analysis entry point is called without an
engine (RuntimeError "Engine not initialized. Use with statement."). -/
inductive AnalyzerError where
  | engineUnavailable
deriving DecidableEq

/-- GameAnalyzer.analyze_position (lines 184-301): fails when the engine is
absent; otherwise dispatches between the stability loop and the fixed-time
query (stability only when the global mode says so and the granted budget is
not the quick one). -/
def analyzePosition (engineReady : Bool) (mode : String) (timeLimit : ℚ)
    (startTime : ℚ) (updates : List EngineInfo) (endTime : ℚ)
    (timedInfo : Option EngineInfo) : Except AnalyzerError PositionVerdict :=
  if engineReady then
    if mode = "stability" ∧ timeLimit ≠ QUICK_ANALYSIS_TIME then
      Except.ok (analyzePositionStability startTime updates endTime)
    else
      Except.ok (analyzePositionTimed timedInfo startTime endTime)
  else
    Except.error AnalyzerError.engineUnavailable

/-- One entry of the per-move analysis list built by analyze_game
(lines 109-123). -/
structure MoveRecord where
  move_number : ℕ
  player : String
  move : Move
  san : String
  eval_before : Option ℚ
  eval_after : Option ℚ
  eval_change : Option ℚ
  board_fen : String
  pre_move_fen : String
  ply_index : ℕ
  time_taken_before : ℚ
  time_taken_after : ℚ
  position_analysis : PositionVerdict
deriving DecidableEq

/-- The data the external chess library supplies for one mainline ply of
analyze_game: the move, its rendered notation, the board encodings and turn
flags around it, and whether the position after it is terminal. -/
structure PlyData where
  move : Move
  san : String
  preFen : String
  postFen : String
  turnWhiteBefore : Bool
  turnWhiteAfter : Bool
  gameOverAfter : Bool
deriving DecidableEq

/-- The per-ply loop of analyze_game (lines 82-136), with the engine
interaction abstracted as an oracle mapping (call index, time budget) to the
verdict analyze_position returns for that call. Carries the running pre-move
verdict, the displayed move number, the ply index and the oracle call index;
stops after recording a ply whose resulting position is terminal. -/
def analyzeGameLoop (oracle : ℕ → ℚ → PositionVerdict) :
    List PlyData → PositionVerdict → ℕ → ℕ → ℕ → List MoveRecord
  | [], _, _, _, _ => []
  | p :: rest, current, moveNumber, plyIndex, callIdx =>
    let evalBefore := current.evaluation
    let tl := computeTimeLimit plyIndex evalBefore
    let next := oracle callIdx tl
    let evalAfter := next.evaluation
    let change := calculateEvalChange evalBefore evalAfter
    let record : MoveRecord :=
      { move_number := moveNumber
        player := if p.turnWhiteBefore then "White" else "Black"
        move := p.move
        san := p.san
        eval_before := evalBefore
        eval_after := evalAfter
        eval_change := change
        board_fen := p.postFen
        pre_move_fen := p.preFen
        ply_index := plyIndex
        time_taken_before := current.time_taken
        time_taken_after := next.time_taken
        position_analysis := current }
    if p.gameOverAfter then
      [record]
    else
      record :: analyzeGameLoop oracle rest next
        (if p.turnWhiteAfter then moveNumber + 1 else moveNumber)
        (plyIndex + 1) (callIdx + 1)

/-- GameAnalyzer.analyze_game (lines 50-136): fails when the engine is
absent; otherwise seeds the running verdict by analyzing the initial
position at the quick budget (oracle call 0) and runs the per-ply loop. -/
def analyzeGame (engineReady : Bool) (plies : List PlyData)
    (oracle : ℕ → ℚ → PositionVerdict) : Except AnalyzerError (List MoveRecord) :=
  if engineReady then
    Except.ok (analyzeGameLoop oracle plies (oracle 0 QUICK_ANALYSIS_TIME) 1 0 1)
  else
    Except.error AnalyzerError.engineUnavailable

/-- The mutable locals of the deep single-move loop in analyze_specific_move
(lines 347-352). -/
structure DeepState where
  lastPv : Option (List Move)
  lastEval : Option ℚ
  lastDepth : ℕ
  lastBestMove : Option Move
  lastChangeTime : ℚ
deriving DecidableEq

/-- One iteration of the deep single-move loop (lines 363-441). Unlike the
stability loop of analyze_position, the refinement branch updates the
tracked variables before checking the quiet period, and the fixed-time mode
also streams, breaking once the duration is exceeded. -/
def deepStep (mode : String) (duration startTime : ℚ) (st : DeepState)
    (u : EngineInfo) : DeepState × Bool :=
  match u.pv with
  | [] => (st, false)
  | cur :: _ =>
    if st.lastPv = none ∨ st.lastBestMove ≠ some cur then
      if mode = "time" ∧ u.t - startTime > duration then
        (⟨some u.pv, extractEvaluation u.score, u.depth, some cur, u.t⟩, true)
      else
        (⟨some u.pv, extractEvaluation u.score, u.depth, some cur, u.t⟩, false)
    else
      if mode = "stability" ∧ STABILITY_THRESHOLD ≤ u.t - st.lastChangeTime then
        (⟨some u.pv, extractEvaluation u.score, u.depth, some cur, st.lastChangeTime⟩, true)
      else if mode = "time" ∧ u.t - startTime > duration then
        (⟨some u.pv, extractEvaluation u.score, u.depth, some cur, st.lastChangeTime⟩, true)
      else
        (⟨some u.pv, extractEvaluation u.score, u.depth, some cur, st.lastChangeTime⟩, false)

/-- Runs the deep single-move loop over a finite update stream. -/
def deepRun (mode : String) (duration startTime : ℚ) (st : DeepState) :
    List EngineInfo → DeepState × Bool
  | [] => (st, false)
  | u :: us =>
    match deepStep mode duration startTime st u with
    | (st1, true) => (st1, true)
    | (st1, false) => deepRun mode duration startTime st1 us

/-- GameAnalyzer.analyze_specific_move (lines 303-467): fails when the
engine is absent; otherwise streams updates through the deep loop (the
optional baseline evaluation of the actually played move is negated before
use, line 343) and ends with the final tracking state. -/
def analyzeSpecificMove (engineReady : Bool) (mode : String) (duration : ℚ)
    (startTime : ℚ) (actualAnalysisEval : Option ℚ) (updates : List EngineInfo) :
    Except AnalyzerError DeepState :=
  if engineReady then
    let _actualMoveEval := actualAnalysisEval.map (fun e => -e)
    Except.ok (deepRun mode duration startTime ⟨none, none, 0, none, startTime⟩ updates).1
  else
    Except.error AnalyzerError.engineUnavailable

/-- The filter of find_worst_moves (lines 173-177): keep records with a
present swing whose pre-move evaluation is absent or within the decided
threshold. -/
def worstPred (m : MoveRecord) : Bool :=
  m.eval_change.isSome &&
    (match m.eval_before with
     | none => true
     | some e => decide (|e| ≤ GAME_OVER_EVAL_THRESHOLD))

/-- The sort key of find_worst_moves (line 180); every record reaching the
sort has a present swing, so the default is never consulted. -/
def swingKey (m : MoveRecord) : ℚ :=
  m.eval_change.getD 0

/-- The comparison used to model the stable Python sort of line 180. -/
def worstLE (a b : MoveRecord) : Bool :=
  decide (swingKey a ≤ swingKey b)

/-- The filtered list of find_worst_moves after its in-place stable sort
(lines 173-180); Python list.sort is stable, and a stable sort under a total
preorder is extensionally unique, so merge sort is an exact model. -/
def sortedWorst (analysis : List MoveRecord) : List MoveRecord :=
  (analysis.filter worstPred).mergeSort worstLE

/-- GameAnalyzer.find_worst_moves (lines 170-182). -/
def find_worst_moves (analysis : List MoveRecord) : List MoveRecord :=
  (sortedWorst analysis).take TOP_N

/-- A small object store modelling the Python heap around a call to
find_worst_moves: each cell is a list object, named by its index. The call
reads the argument list, allocates the filtered comprehension result, sorts
that fresh object in place, and allocates the truncated slice it returns
(paired as final store and returned reference). -/
def find_worst_moves_heap (store : List (List MoveRecord)) (aRef : ℕ) :
    List (List MoveRecord) × ℕ :=
  let analysis := store.getD aRef []
  let mwc := analysis.filter worstPred
  let store1 := store ++ [mwc]
  let mwcRef := store.length
  let sorted := mwc.mergeSort worstLE
  let store2 := store1.set mwcRef sorted
  (store2 ++ [sorted.take TOP_N], store2.length)

/-- Restricted raw-score domain under which the normalizer stays bounded:
mate distances at most 1099 (any negative distance qualifies) and centipawn
magnitudes at most 9900. -/
def rawScoreRealistic : Option Score → Prop
  | none => True
  | some (Score.mate m) => m ≤ 1099
  | some (Score.cp c) => -9900 ≤ c ∧ c ≤ 9900

/-- C1: the computed evaluation swing of a pair of present evaluations is
the negated post-move score minus the pre-move score, and the swing is
absent exactly when at least one operand is absent. -/
theorem claim_c1_eval_swing :
    (∀ x y : ℚ, calculateEvalChange (some x) (some y) = some ((-y) - x)) ∧
    (∀ a b : Option ℚ, calculateEvalChange a b = none ↔ (a = none ∨ b = none)) := by
  constructor
  · intro x y; rfl
  · intro a b
    cases a <;> cases b <;> simp [calculateEvalChange]

/-- Witness for C1 at the concrete operands 1 and 2 and at an absent
pre-move operand. -/
theorem claim_c1_eval_swing_witness :
    calculateEvalChange (some (1 : ℚ)) (some 2) = some ((-2) - 1) ∧
    (calculateEvalChange (none : Option ℚ) (some 2) = none ↔
      ((none : Option ℚ) = none ∨ (some (2 : ℚ)) = none)) :=
  ⟨claim_c1_eval_swing.1 1 2, claim_c1_eval_swing.2 none (some 2)⟩

/-- C2 counterexample: at a mate-in-902 against the side to move the code
returns -99, while the claimed formula max(-99, -1000 + N) with N = 902
gives -98. -/
theorem claim_c2_counterexample :
    extractEvaluation (some (Score.mate (-902))) = some (-99) ∧
    max (-99 : ℚ) (-1000 + 902) = -98 ∧ (-99 : ℚ) ≠ -98 := by
  refine ⟨?_, ?_, by norm_num⟩
  · simp only [extractEvaluation]
    norm_num
  · norm_num

/-- C2 amended: for a mate-in-N favoring the side to move the normalizer
returns min(99, 1000 - N); for a mate-in-N against the side to move it
returns max(-99, -1000 - N), which equals -99 for every positive N; a
non-mate centipawn value c maps to c / 100 with no clamping; an absent raw
score maps to an absent result. -/
theorem claim_c2_amended :
    (∀ N : ℤ, 0 < N →
      extractEvaluation (some (Score.mate N)) = some (min 99 (1000 - (N : ℚ))) ∧
      extractEvaluation (some (Score.mate (-N))) = some (max (-99) (-1000 - (N : ℚ))) ∧
      max (-99 : ℚ) (-1000 - (N : ℚ)) = -99) ∧
    (∀ c : ℤ, extractEvaluation (some (Score.cp c)) = some ((c : ℚ) / 100)) ∧
    extractEvaluation none = none := by
  refine ⟨?_, fun c => rfl, rfl⟩
  intro N hN
  have hNQ : (0 : ℚ) < (N : ℚ) := by exact_mod_cast hN
  have hmax : max (-99 : ℚ) (-1000 - (N : ℚ)) = -99 := by
    apply max_eq_left; linarith
  refine ⟨?_, ?_, hmax⟩
  · simp only [extractEvaluation, if_pos hN]
  · have hneg : ¬ ((-N : ℤ) > 0) := by omega
    simp only [extractEvaluation, if_neg hneg]
    norm_num
    ring_nf

/-- Witness for C2 amended at the concrete mate distance 3. -/
theorem claim_c2_amended_witness :
    extractEvaluation (some (Score.mate 3)) = some (min 99 (1000 - ((3 : ℤ) : ℚ))) ∧
    extractEvaluation (some (Score.mate (-3))) = some (max (-99) (-1000 - ((3 : ℤ) : ℚ))) :=
  ⟨(claim_c2_amended.1 3 (by norm_num)).1, (claim_c2_amended.1 3 (by norm_num)).2.1⟩

/-- C3: the code evaluated at the failing input. At 0-based ply index 49 with
a present near-equal pre-move evaluation, the code grants the deep budget
even though 49 is below the quick-ply threshold QUICK_ANALYSIS_PLY = 50
(the code's own comments promise quick analysis for the first 50 plies);
ply index 0 does always receive the quick budget regardless of evaluation. -/
theorem claim_c3_code_eval :
    computeTimeLimit 49 (some 0) = TIME_LIMIT ∧
    TIME_LIMIT ≠ QUICK_ANALYSIS_TIME ∧
    49 < QUICK_ANALYSIS_PLY ∧
    (∀ e : Option ℚ, computeTimeLimit 0 e = QUICK_ANALYSIS_TIME) := by
  refine ⟨?_, ?_, ?_, ?_⟩
  · simp only [computeTimeLimit, QUICK_ANALYSIS_PLY, GAME_OVER_EVAL_THRESHOLD]
    norm_num
  · simp only [TIME_LIMIT, QUICK_ANALYSIS_TIME]
    norm_num
  · simp only [QUICK_ANALYSIS_PLY]
    norm_num
  · intro e
    simp only [computeTimeLimit, QUICK_ANALYSIS_PLY]
    norm_num

/-- C5 counterexample: the oracle input 10000 centipawns is normalized to
100 pawns, which is neither absent nor inside the interval [-99, 99]. -/
theorem claim_c5_counterexample :
    extractEvaluation (some (Score.cp 10000)) = some 100 ∧
    ¬ ((-99 : ℚ) ≤ 100 ∧ (100 : ℚ) ≤ 99) := by
  constructor
  · simp only [extractEvaluation]
    norm_num
  · norm_num

/-- C5 amended: every EvaluationScore produced by the normalizer is either
absent or lies within [-99, 99], provided the raw input is realistic: any
mate distance at most 1099 and any centipawn magnitude at most 9900. -/
theorem claim_c5_amended :
    ∀ s : Option Score, rawScoreRealistic s →
      ∀ v : ℚ, extractEvaluation s = some v → -99 ≤ v ∧ v ≤ 99 := by
  intro s hs v hv
  match s with
  | none => simp [extractEvaluation] at hv
  | some (Score.mate m) =>
    by_cases hm : m > 0
    · simp only [extractEvaluation, if_pos hm, Option.some.injEq] at hv
      have hmQ : (m : ℚ) ≤ 1099 := by exact_mod_cast hs
      constructor
      · rw [← hv]
        apply le_min <;> linarith
      · rw [← hv]
        exact min_le_left _ _
    · simp only [extractEvaluation, if_neg hm, Option.some.injEq] at hv
      have hmQ : (m : ℚ) ≤ 0 := by
        have : m ≤ 0 := by omega
        exact_mod_cast this
      have : max (-99 : ℚ) (-1000 + (m : ℚ)) = -99 := by
        apply max_eq_left; linarith
      rw [← hv, this]
      norm_num
  | some (Score.cp c) =>
    simp only [extractEvaluation, Option.some.injEq] at hv
    obtain ⟨h1, h2⟩ := hs
    have h1Q : (-9900 : ℚ) ≤ (c : ℚ) := by exact_mod_cast h1
    have h2Q : (c : ℚ) ≤ 9900 := by exact_mod_cast h2
    rw [← hv]
    constructor <;> [linarith; linarith]

/-- Witness for C5 amended at the concrete raw score of 250 centipawns. -/
theorem claim_c5_amended_witness :
    (-99 : ℚ) ≤ ((250 : ℤ) : ℚ) / 100 ∧ ((250 : ℤ) : ℚ) / 100 ≤ 99 :=
  claim_c5_amended (some (Score.cp 250)) (by norm_num [rawScoreRealistic]) _ rfl

/-- C8 counterexample: mate-in-1 and mate-in-5 favoring the side to move
both normalize to 99, so the mate-in-1 magnitude is not strictly larger. -/
theorem claim_c8_counterexample :
    extractEvaluation (some (Score.mate 1)) = some 99 ∧
    extractEvaluation (some (Score.mate 5)) = some 99 ∧
    ¬ (|(99 : ℚ)| > |(99 : ℚ)|) := by
  refine ⟨?_, ?_, by norm_num⟩
  · simp only [extractEvaluation]
    norm_num
  · simp only [extractEvaluation]
    norm_num

/-- C8 amended: the normalizer is weakly monotonic in mate distance for
equal sign: for mate distances 0 < a ≤ b ≤ 1000, the closer mate maps to a
weakly larger magnitude, on both the favoring and the against side. -/
theorem claim_c8_amended :
    ∀ a b : ℤ, 0 < a → a ≤ b → b ≤ 1000 →
      (∀ va vb : ℚ, extractEvaluation (some (Score.mate a)) = some va →
        extractEvaluation (some (Score.mate b)) = some vb → |vb| ≤ |va|) ∧
      (∀ wa wb : ℚ, extractEvaluation (some (Score.mate (-a))) = some wa →
        extractEvaluation (some (Score.mate (-b))) = some wb → |wb| ≤ |wa|) := by
  intro a b ha hab hb
  have haQ : (0 : ℚ) < (a : ℚ) := by exact_mod_cast ha
  have habQ : (a : ℚ) ≤ (b : ℚ) := by exact_mod_cast hab
  have hbQ : (b : ℚ) ≤ 1000 := by exact_mod_cast hb
  have hb0 : (0 : ℤ) < b := lt_of_lt_of_le ha hab
  constructor
  · intro va vb hva hvb
    simp only [extractEvaluation, if_pos ha, Option.some.injEq] at hva
    simp only [extractEvaluation, if_pos hb0, Option.some.injEq] at hvb
    have hva0 : 0 ≤ va := by
      rw [← hva]; apply le_min <;> linarith
    have hvb0 : 0 ≤ vb := by
      rw [← hvb]; apply le_min <;> linarith
    rw [abs_of_nonneg hva0, abs_of_nonneg hvb0, ← hva, ← hvb]
    apply min_le_min le_rfl
    linarith
  · intro wa wb hwa hwb
    have hna : ¬ ((-a : ℤ) > 0) := by omega
    have hnb : ¬ ((-b : ℤ) > 0) := by omega
    simp only [extractEvaluation, if_neg hna, Option.some.injEq] at hwa
    simp only [extractEvaluation, if_neg hnb, Option.some.injEq] at hwb
    have hwa99 : wa = -99 := by
      rw [← hwa]; apply max_eq_left; push_cast; linarith
    have hwb99 : wb = -99 := by
      rw [← hwb]; apply max_eq_left; push_cast; linarith
    rw [hwa99, hwb99]

/-- Witness for C8 amended at the concrete mate distances 1 and 5. -/
theorem claim_c8_amended_witness :
    |(99 : ℚ)| ≤ |(99 : ℚ)| ∧ |(-99 : ℚ)| ≤ |(-99 : ℚ)| := by
  have h := claim_c8_amended 1 5 (by norm_num) (by norm_num) (by norm_num)
  have h1 : extractEvaluation (some (Score.mate 1)) = some 99 := by
    simp only [extractEvaluation]; norm_num
  have h5 : extractEvaluation (some (Score.mate 5)) = some 99 := by
    simp only [extractEvaluation]; norm_num
  have hn1 : extractEvaluation (some (Score.mate (-1))) = some (-99) := by
    simp only [extractEvaluation]; norm_num
  have hn5 : extractEvaluation (some (Score.mate (-5))) = some (-99) := by
    simp only [extractEvaluation]; norm_num
  exact ⟨h.1 99 99 h1 h5, h.2 (-99) (-99) hn1 hn5⟩

/-- An update stream whose leading moves alternate, starting with A, then B,
then A again, and so on; every update carries a usable variation. -/
def alternates (A B : Move) : List EngineInfo → Prop
  | [] => True
  | u :: us => u.pv.head? = some A ∧ alternates B A us

/-- Consecutive updates of the stream arrive at most q seconds apart. -/
def gapsWithin (q : ℚ) : List EngineInfo → Prop :=
  List.Chain' (fun u v => v.t - u.t ≤ q)

/-- A step of the stability loop on an update whose leading move differs
from the tracked one replaces the whole tracked verdict, stamps the change
time, and continues. -/
theorem stabStep_change (st : StabState) (u : EngineInfo) (cur : Move)
    (rest : List Move) (hpv : u.pv = cur :: rest)
    (h : st.lastBestMove ≠ some cur) :
    stabStep st u = (⟨some cur, u.t, some u.pv, extractEvaluation u.score, u.depth⟩, false) := by
  simp only [stabStep, hpv]
  rw [if_pos h]

/-- Unrolling one non-breaking step of the stability loop. -/
theorem stabRun_cons_continue {st st1 : StabState} {u : EngineInfo}
    {us : List EngineInfo} (h : stabStep st u = (st1, false)) :
    stabRun st (u :: us) = stabRun st1 us := by
  simp only [stabRun, h]

/-- Over a stream whose leading moves alternate between two distinct moves,
every step takes the change branch, so the stability loop never breaks,
whatever state it starts from (provided that state does not already track
the first move of the stream). -/
theorem stabRun_alternating_aux :
    ∀ (us : List EngineInfo) (A B : Move), A ≠ B → alternates A B us →
      ∀ st : StabState, st.lastBestMove ≠ some A → (stabRun st us).2 = false := by
  intro us
  induction us with
  | nil => intro A B _ _ st _; rfl
  | cons u us ih =>
    intro A B hAB halt st hst
    obtain ⟨hhead, hrest⟩ := halt
    obtain ⟨tail, hpv⟩ : ∃ tail, u.pv = A :: tail := by
      cases hu : u.pv with
      | nil => rw [hu] at hhead; simp at hhead
      | cons a t =>
        rw [hu] at hhead
        simp only [List.head?_cons, Option.some.injEq] at hhead
        exact ⟨t, by rw [hhead]⟩
    rw [stabRun_cons_continue (stabStep_change st u A tail hpv hst)]
    apply ih B A (Ne.symm hAB) hrest
    intro hcontra
    exact hAB (Option.some.inj hcontra)

/-- C6 counterexample: with quiet period 10, a first update tracking move 1
with score 1.00, followed by a same-move update with score 2.00 arriving 10
seconds later, converges with evaluation 1.00: the latest same-move update
processed did not replace the tracked score, contradicting the claim that
the emitted verdict carries the score of the latest same-move update. -/
theorem claim_c6_counterexample :
    (analyzePositionStability 0
      [⟨[1], some (Score.cp 100), 10, 0⟩, ⟨[1, 2], some (Score.cp 200), 12, 10⟩]
      10).evaluation = some 1 ∧
    extractEvaluation (EngineInfo.score ⟨[1, 2], some (Score.cp 200), 12, 10⟩) = some 2 ∧
    (analyzePositionStability 0
      [⟨[1], some (Score.cp 100), 10, 0⟩, ⟨[1, 2], some (Score.cp 200), 12, 10⟩]
      10).evaluation ≠
      extractEvaluation (EngineInfo.score ⟨[1, 2], some (Score.cp 200), 12, 10⟩) := by
  have e1 : extractEvaluation (some (Score.cp 100)) = some 1 := by
    simp only [extractEvaluation]; norm_num
  have e2 : extractEvaluation (some (Score.cp 200)) = some 2 := by
    simp only [extractEvaluation]; norm_num
  have hstep1 : stabStep (initStab 0) ⟨[1], some (Score.cp 100), 10, 0⟩ =
      (⟨some 1, 0, some [1], some 1, 10⟩, false) := by
    rw [stabStep_change (initStab 0) ⟨[1], some (Score.cp 100), 10, 0⟩ 1 [] rfl
      (by simp [initStab])]
    dsimp only
    rw [e1]
  have hstep2 : stabStep ⟨some 1, 0, some [1], some 1, 10⟩
      ⟨[1, 2], some (Score.cp 200), 12, 10⟩ =
      ((⟨some 1, 0, some [1], some 1, 10⟩ : StabState), true) := by
    simp only [stabStep]
    rw [if_neg (by simp), if_pos (by norm_num [STABILITY_THRESHOLD])]
  have hrun : stabRun (initStab 0)
      [⟨[1], some (Score.cp 100), 10, 0⟩, ⟨[1, 2], some (Score.cp 200), 12, 10⟩] =
      (⟨some 1, 0, some [1], some 1, 10⟩, true) := by
    rw [stabRun_cons_continue hstep1]
    simp only [stabRun, hstep2]
  refine ⟨?_, ?_, ?_⟩
  · simp only [analyzePositionStability, hrun]
  · exact e2
  · simp only [analyzePositionStability, hrun]
    rw [show extractEvaluation
        (EngineInfo.score ⟨[1, 2], some (Score.cp 200), 12, 10⟩) = some 2 from e2]
    simp only [ne_eq, Option.some.injEq]
    norm_num

/-- C6 amended: in the Tracking state, an update whose leading move equals
the tracked best move replaces the tracked score and variation without
resetting the last-change time only when it arrives strictly before the
quiet period has elapsed; an update arriving once the quiet period has
elapsed triggers convergence with the tracked state unchanged, so the
emitted verdict carries the score and variation of the latest same-move
update processed before the stop decision fired. -/
theorem claim_c6_amended :
    ∀ (st : StabState) (u : EngineInfo) (cur : Move) (rest : List Move),
      u.pv = cur :: rest → st.lastBestMove = some cur →
      (u.t - st.lastChangeTime < STABILITY_THRESHOLD →
        stabStep st u =
          ({ st with bestPv := some u.pv, bestEval := extractEvaluation u.score, lastDepth := u.depth }, false)) ∧
      (STABILITY_THRESHOLD ≤ u.t - st.lastChangeTime →
        stabStep st u = (st, true)) := by
  intro st u cur rest hpv htr
  constructor
  · intro hlt
    simp only [stabStep, hpv]
    rw [if_neg (by simp [htr]), if_neg (not_le.mpr hlt)]
  · intro hge
    simp only [stabStep, hpv]
    rw [if_neg (by simp [htr]), if_pos hge]

/-- Witness for C6 amended: a same-move update 5 seconds after the last
change refines the tracked score and variation in place, while the same
update arriving 10 seconds after the last change stops the loop with the
state untouched. -/
theorem claim_c6_amended_witness :
    stabStep ⟨some 1, 0, some [1], some 1, 10⟩ ⟨[1, 2], some (Score.cp 200), 12, 5⟩ =
      (⟨some 1, 0, some [1, 2], some 2, 12⟩, false) ∧
    stabStep ⟨some 1, 0, some [1], some 1, 10⟩ ⟨[1, 2], some (Score.cp 200), 12, 10⟩ =
      (⟨some 1, 0, some [1], some 1, 10⟩, true) := by
  have e2 : extractEvaluation (some (Score.cp 200)) = some 2 := by
    simp only [extractEvaluation]; norm_num
  constructor
  · have h := (claim_c6_amended ⟨some 1, 0, some [1], some 1, 10⟩
      ⟨[1, 2], some (Score.cp 200), 12, 5⟩ 1 [2] rfl rfl).1
      (by norm_num [STABILITY_THRESHOLD])
    rw [h]
    dsimp only
    rw [e2]
  · have h := (claim_c6_amended ⟨some 1, 0, some [1], some 1, 10⟩
      ⟨[1, 2], some (Score.cp 200), 12, 10⟩ 1 [2] rfl rfl).2
      (by norm_num [STABILITY_THRESHOLD])
    rw [h]

/-- C7: over any update stream alternating between two distinct leading
moves with at most half the quiet period between consecutive updates, the
stability loop never reaches the converged state while the alternation
continues. -/
theorem claim_c7_no_convergence :
    ∀ (A B : Move) (t0 : ℚ) (us : List EngineInfo), A ≠ B →
      alternates A B us → gapsWithin (STABILITY_THRESHOLD / 2) us →
      (stabRun (initStab t0) us).2 = false := by
  intro A B t0 us hAB halt _
  exact stabRun_alternating_aux us A B hAB halt _ (by simp [initStab])

/-- Witness for C7: a concrete three-update stream alternating between
moves 0 and 1 with gaps of 4 seconds never stops on stability. -/
theorem claim_c7_witness :
    (stabRun (initStab 0)
      [⟨[0], some (Score.cp 10), 5, 0⟩, ⟨[1], none, 6, 4⟩,
       ⟨[0], some (Score.cp 20), 7, 8⟩]).2 = false := by
  apply claim_c7_no_convergence 0 1 0 _ (by norm_num)
  · simp [alternates]
  · simp only [gapsWithin, List.chain'_cons, List.chain'_singleton, and_true]
    constructor <;> norm_num [STABILITY_THRESHOLD]

/-- The sort comparison of find_worst_moves is transitive. -/
theorem worstLE_trans : ∀ a b c : MoveRecord, worstLE a b → worstLE b c → worstLE a c := by
  intro a b c hab hbc
  simp only [worstLE, decide_eq_true_eq] at hab hbc ⊢
  exact le_trans hab hbc

/-- The sort comparison of find_worst_moves is total. -/
theorem worstLE_total : ∀ a b : MoveRecord, worstLE a b || worstLE b a := by
  intro a b
  simp only [worstLE, Bool.or_eq_true, decide_eq_true_eq]
  exact le_total _ _

/-- A record returned by find_worst_moves comes from the input and passes
the decided-position filter. -/
theorem mem_worst_filter {analysis : List MoveRecord} {r : MoveRecord}
    (h : r ∈ find_worst_moves analysis) : r ∈ analysis ∧ worstPred r = true := by
  have h1 : r ∈ sortedWorst analysis := List.mem_of_mem_take h
  simp only [sortedWorst] at h1
  have h2 : r ∈ analysis.filter worstPred := List.mem_mergeSort.mp h1
  exact ⟨(List.mem_filter.mp h2).1, (List.mem_filter.mp h2).2⟩

/-- C4: the output of find_worst_moves contains no record with an absent
swing, no record whose present pre-move evaluation exceeds the decided
threshold in magnitude, is sorted ascending by swing, has length at most
TOP_N; a record with a present swing but an absent pre-move evaluation is
not excluded; ties in swing keep the relative order of the input (the model
sort is stable); and the output is exactly the first TOP_N entries of the
stably sorted filtered list. -/
theorem claim_c4_worst_moves (analysis : List MoveRecord) :
    (∀ r ∈ find_worst_moves analysis, r.eval_change ≠ none) ∧
    (∀ r ∈ find_worst_moves analysis, ∀ e : ℚ, r.eval_before = some e →
      |e| ≤ GAME_OVER_EVAL_THRESHOLD) ∧
    (find_worst_moves analysis).Pairwise (fun a b => swingKey a ≤ swingKey b) ∧
    (find_worst_moves analysis).length ≤ TOP_N ∧
    (∀ r ∈ analysis, r.eval_change ≠ none → r.eval_before = none →
      r ∈ sortedWorst analysis) ∧
    (∀ a b : MoveRecord, [a, b].Sublist (analysis.filter worstPred) →
      swingKey a ≤ swingKey b → [a, b].Sublist (sortedWorst analysis)) ∧
    find_worst_moves analysis = (sortedWorst analysis).take TOP_N := by
  refine ⟨?_, ?_, ?_, ?_, ?_, ?_, rfl⟩
  · intro r hr
    have hp := (mem_worst_filter hr).2
    simp only [worstPred, Bool.and_eq_true] at hp
    exact Option.isSome_iff_ne_none.mp hp.1
  · intro r hr e he
    have hp := (mem_worst_filter hr).2
    simp only [worstPred, Bool.and_eq_true, he] at hp
    exact of_decide_eq_true hp.2
  · have hs : (sortedWorst analysis).Pairwise (fun a b => worstLE a b = true) :=
      List.sorted_mergeSort worstLE_trans worstLE_total (analysis.filter worstPred)
    have ht : (find_worst_moves analysis).Pairwise (fun a b => worstLE a b = true) :=
      hs.sublist (List.take_sublist _ _)
    exact ht.imp (fun hab => of_decide_eq_true hab)
  · exact List.length_take_le _ _
  · intro r hr hchange hbefore
    apply List.mem_mergeSort.mpr
    apply List.mem_filter.mpr
    refine ⟨hr, ?_⟩
    simp only [worstPred, Bool.and_eq_true, hbefore]
    exact ⟨Option.isSome_iff_ne_none.mpr hchange, trivial⟩
  · intro a b hsub hkey
    exact List.pair_sublist_mergeSort worstLE_trans worstLE_total
      (by simpa only [worstLE] using decide_eq_true hkey) hsub

/-- A fixed empty position verdict used in concrete test records. -/
def sampleVerdict : PositionVerdict :=
  ⟨none, none, [], 0⟩

/-- A concrete record at ply 0 with swing -1 and a present near-equal
pre-move evaluation. -/
def sampleRecA : MoveRecord :=
  ⟨1, "White", 0, "e4", some 0, some 1, some (-1), "fenA", "fen0", 0, 0, 0, sampleVerdict⟩

/-- A concrete record at ply 1 with the same swing -1 and an absent
pre-move evaluation. -/
def sampleRecB : MoveRecord :=
  ⟨1, "Black", 1, "c5", none, some 1, some (-1), "fenB", "fenA", 1, 0, 0, sampleVerdict⟩

/-- Witness for C4: on a concrete two-record input with tied swings, both
records pass the filter, and the stable sort keeps them in input order. -/
theorem claim_c4_worst_moves_witness :
    [sampleRecA, sampleRecB].Sublist ([sampleRecA, sampleRecB].filter worstPred) ∧
    swingKey sampleRecA ≤ swingKey sampleRecB ∧
    [sampleRecA, sampleRecB].Sublist (sortedWorst [sampleRecA, sampleRecB]) ∧
    sampleRecB ∈ sortedWorst [sampleRecA, sampleRecB] := by
  have hA : worstPred sampleRecA = true := by
    simp only [worstPred, sampleRecA, Bool.and_eq_true, decide_eq_true_eq]
    norm_num [GAME_OVER_EVAL_THRESHOLD]
  have hB : worstPred sampleRecB = true := by
    simp only [worstPred, sampleRecB]
    rfl
  have hfil : [sampleRecA, sampleRecB].filter worstPred = [sampleRecA, sampleRecB] := by
    apply List.filter_eq_self.mpr
    intro a ha
    simp only [List.mem_cons, List.not_mem_nil, or_false] at ha
    rcases ha with h | h
    · rw [h]; exact hA
    · rw [h]; exact hB
  have hsub : [sampleRecA, sampleRecB].Sublist ([sampleRecA, sampleRecB].filter worstPred) := by
    rw [hfil]
  have hkey : swingKey sampleRecA ≤ swingKey sampleRecB := by
    simp only [swingKey, sampleRecA, sampleRecB]
    norm_num
  have h := claim_c4_worst_moves [sampleRecA, sampleRecB]
  refine ⟨hsub, hkey, h.2.2.2.2.2.1 _ _ hsub hkey, ?_⟩
  apply h.2.2.2.2.1 sampleRecB (by simp) (by simp [sampleRecB]) (by simp [sampleRecB])

/-- C9: each of the three analysis entry points, invoked without an
initialized engine, signals the engine-unavailable error and produces no
result. -/
theorem claim_c9_engine_guard :
    ∀ (plies : List PlyData) (oracle : ℕ → ℚ → PositionVerdict) (mode : String)
      (timeLimit startTime endTime duration : ℚ) (updates : List EngineInfo)
      (timedInfo : Option EngineInfo) (actualEval : Option ℚ),
      analyzeGame false plies oracle = Except.error AnalyzerError.engineUnavailable ∧
      analyzePosition false mode timeLimit startTime updates endTime timedInfo =
        Except.error AnalyzerError.engineUnavailable ∧
      analyzeSpecificMove false mode duration startTime actualEval updates =
        Except.error AnalyzerError.engineUnavailable := by
  intros
  exact ⟨rfl, rfl, rfl⟩

/-- C10: find_worst_moves does not mutate its input: in the heap model the
cell holding the argument list is unchanged by the call, the returned
reference is a freshly allocated one (outside the pre-existing store), and
it holds exactly the ranked result computed from the unchanged input. -/
theorem claim_c10_no_mutation :
    ∀ (store : List (List MoveRecord)) (aRef : ℕ), aRef < store.length →
      (find_worst_moves_heap store aRef).1[aRef]? = store[aRef]? ∧
      store.length ≤ (find_worst_moves_heap store aRef).2 ∧
      (find_worst_moves_heap store aRef).1[(find_worst_moves_heap store aRef).2]? =
        some (find_worst_moves (store.getD aRef [])) := by
  intro store aRef href
  have hlen1 : aRef < (store ++ [(store.getD aRef []).filter worstPred]).length := by
    simp only [List.length_append, List.length_cons, List.length_nil]
    omega
  have hlen2 : aRef <
      (((store ++ [(store.getD aRef []).filter worstPred]).set store.length
        (((store.getD aRef []).filter worstPred).mergeSort worstLE))).length := by
    simp only [List.length_set, List.length_append, List.length_cons, List.length_nil]
    omega
  refine ⟨?_, ?_, ?_⟩
  · show (((store ++ [_]).set store.length _) ++ [_])[aRef]? = store[aRef]?
    rw [List.getElem?_append_left hlen2,
      List.getElem?_set_ne (by omega), List.getElem?_append_left href]
  · show store.length ≤ ((store ++ [_]).set store.length _).length
    simp only [List.length_set, List.length_append, List.length_cons, List.length_nil]
    omega
  · exact List.getElem?_concat_length _ _

/-- Witness for C10 on a concrete one-cell store. -/
theorem claim_c10_no_mutation_witness :
    (find_worst_moves_heap [[sampleRecA]] 0).1[0]? = [[sampleRecA]][0]? ∧
    (find_worst_moves_heap [[sampleRecA]] 0).1[(find_worst_moves_heap [[sampleRecA]] 0).2]? =
      some (find_worst_moves ([[sampleRecA]].getD 0 [])) :=
  ⟨(claim_c10_no_mutation [[sampleRecA]] 0 (by norm_num)).1,
   (claim_c10_no_mutation [[sampleRecA]] 0 (by norm_num)).2.2⟩

end ChessAnalyzer
